import Mathlib

/-!
Shallow embedding of the `research-agent` multi-agent research pipeline
(`src/research_system/`): the data model (`core/models.py`), the worker
(`agents/subagent.py`), the coordinator (`core/orchestrator.py`), the
citation compilation (`agents/citation_agent.py`) and the text parsers
(`utils/parsers.py`), together with theorems settling the spec claims.

Python strings are modelled as `List Char` inside the parser layer and as
`String` at the data-model boundary; Python `re` searches are modelled by
explicit backtracking scanners specialised to the concrete patterns that
appear in the source.
-/

namespace ResearchAgent

/-- `Citation` model from `core/models.py` (the optional `excerpt` field is
never set by the code paths under study and is omitted). -/
structure Citation where
  index : Nat
  title : String
  url : String
  accessed_date : String
  deriving Repr, DecidableEq

/-- Shape of the result dictionary produced by `ResearchSubagent.research`
and consumed by the orchestrator and the citation agent (`SubagentResult`
in `core/models.py`). -/
structure SubagentResult where
  agent_id : String
  task : String
  summary : String
  findings : String
  sources : List String
  confidence : String
  deriving Repr, DecidableEq

/-- Default `max_subagents` from `config/settings.py`. -/
def settings_max_subagents : Nat := 5

/-- Default `min_subagents` from `config/settings.py`. -/
def settings_min_subagents : Nat := 3

/-- One worker run as seen by `ResearchSubagent.research` (`subagent.py`,
lines 97-147): the reasoning loop either completes — the payload fields are
the values the extraction pipeline (`_extract_text_from_output`,
`extract_summary`, the source union, `_extract_confidence`) produced for
that run, none of which the claims constrain — or raises an exception whose
message is `msg`. -/
inductive WorkerBehavior where
  | completes (summary findings : String) (sources : List String) (confidence : String)
  | raises (msg : String)

/-- Models `ResearchSubagent.research` (`subagent.py`, lines 97-147): the
whole reasoning loop is wrapped in `try/except Exception`, so the function
is total — a raised exception is converted into a degraded result and never
escapes. -/
def subagentResearch (agent_id task : String) : WorkerBehavior → SubagentResult
  | .completes summary findings sources confidence =>
      { agent_id := agent_id, task := task, summary := summary,
        findings := findings, sources := sources, confidence := confidence }
  | .raises msg =>
      { agent_id := agent_id, task := task,
        summary := "Research failed: " ++ msg,
        findings := "Error occurred during research: " ++ msg,
        sources := [], confidence := "low" }

/-- Outcome of one gathered coroutine in `_execute_subagents_parallel`
(`orchestrator.py`, lines 214-218): either `execute_with_progress` returned
the worker's result (the worker ran with some `WorkerBehavior`), or the
coroutine raised past the worker's own handler and
`asyncio.gather(..., return_exceptions=True)` captured the exception. -/
inductive GatherOutcome where
  | value (b : WorkerBehavior)
  | exn (msg : String)

/-- Recursion over the task list carrying the enumeration index, mirroring
the `for i, result in enumerate(results)` loop of
`_execute_subagents_parallel` (`orchestrator.py`, lines 220-237):
`asyncio.gather` returns outcomes in input order regardless of completion
order, and a captured exception at index `i` is replaced by a synthetic
degraded result built from `tasks[i]`. -/
def gatherResults (outcome : Nat → GatherOutcome) : Nat → List String → List SubagentResult
  | _, [] => []
  | i, task :: rest =>
      (match outcome i with
       | .value b => subagentResearch ("subagent_" ++ toString i) task b
       | .exn msg =>
           { agent_id := "subagent_" ++ toString i, task := task,
             summary := "Failed: " ++ msg, findings := "Error: " ++ msg,
             sources := [], confidence := "low" }) :: gatherResults outcome (i + 1) rest

/-- Models `_execute_subagents_parallel` (`orchestrator.py`, lines 168-237). -/
def executeSubagentsParallel (tasks : List String) (outcome : Nat → GatherOutcome) :
    List SubagentResult :=
  gatherResults outcome 0 tasks

/-- Models the `max_subagents` enforcement in `MultiAgentResearchSystem.research`
(`orchestrator.py`, lines 82-84): `plan.tasks = plan.tasks[:max_subagents]`
when the parsed plan is oversized, otherwise the plan is left unchanged. -/
def clampPlanTasks (maxSubagents : Nat) (tasks : List String) : List String :=
  if tasks.length > maxSubagents then tasks.take maxSubagents else tasks

theorem gatherResults_map_task (outcome : Nat → GatherOutcome) :
    ∀ (i0 : Nat) (tasks : List String),
      (gatherResults outcome i0 tasks).map SubagentResult.task = tasks := by
  intro i0 tasks
  induction tasks generalizing i0 with
  | nil => rfl
  | cons t rest ih =>
      simp only [gatherResults, List.map_cons, ih]
      cases h : outcome i0 with
      | value b => cases b <;> rfl
      | exn m => rfl

theorem gatherResults_length (outcome : Nat → GatherOutcome) (i0 : Nat)
    (tasks : List String) : (gatherResults outcome i0 tasks).length = tasks.length := by
  have h := congrArg List.length (gatherResults_map_task outcome i0 tasks)
  simpa using h

theorem gatherResults_get_task (outcome : Nat → GatherOutcome) :
    ∀ (i0 : Nat) (tasks : List String) (i : Nat)
      (hi : i < (gatherResults outcome i0 tasks).length) (hj : i < tasks.length),
      ((gatherResults outcome i0 tasks).get ⟨i, hi⟩).task = tasks.get ⟨i, hj⟩ := by
  intro i0 tasks
  induction tasks generalizing i0 with
  | nil => intro i hi hj; exact absurd hj (by simp)
  | cons t rest ih =>
      intro i hi hj
      cases i with
      | zero =>
          cases h : outcome i0 with
          | value b => cases b <;> simp [gatherResults, h, subagentResearch]
          | exn m => simp [gatherResults, h]
      | succ k =>
          have hlen := gatherResults_length outcome (i0 + 1) rest
          have hk' : k < rest.length := by simpa using hj
          have hk : k < (gatherResults outcome (i0 + 1) rest).length := by omega
          have := ih (i0 + 1) k hk hk'
          simpa [gatherResults] using this

/-- C1: for every run of the coordinator over an ordered task list, the
returned list of worker results has length equal to the number of tasks,
and for every index `i` the `i`-th result's `task` field equals the `i`-th
input task, regardless of which workers failed (any `outcome` function)
or the order in which they completed (`asyncio.gather` returns outcomes in
input order). -/
theorem runAll_length_and_task_alignment (tasks : List String)
    (outcome : Nat → GatherOutcome) :
    (executeSubagentsParallel tasks outcome).length = tasks.length ∧
    ∀ (i : Nat) (hi : i < (executeSubagentsParallel tasks outcome).length)
      (hj : i < tasks.length),
      ((executeSubagentsParallel tasks outcome).get ⟨i, hi⟩).task = tasks.get ⟨i, hj⟩ := by
  refine ⟨gatherResults_length outcome 0 tasks, ?_⟩
  intro i hi hj
  exact gatherResults_get_task outcome 0 tasks i hi hj

/-- A concrete gather outcome: worker 0 completes, worker 1 raises. -/
def demoOutcome : Nat → GatherOutcome
  | 0 => .value (.completes "sum" "found" ["http://a.com"] "high")
  | _ => .exn "boom"

theorem runAll_length_and_task_alignment_witness :
    ((executeSubagentsParallel ["alpha", "beta"] demoOutcome).get ⟨1, by decide⟩).task
      = "beta" := by
  have h := (runAll_length_and_task_alignment ["alpha", "beta"] demoOutcome).2 1
      (by decide) (by decide)
  simpa using h

/-- C5: a parsed plan with more tasks than `max_subagents` is truncated to
exactly the first `max_subagents` entries in the same order; a plan with at
most `max_subagents` tasks is unchanged. -/
theorem clampPlanTasks_spec (maxSubagents : Nat) (tasks : List String) :
    (tasks.length > maxSubagents →
      (clampPlanTasks maxSubagents tasks).length = maxSubagents ∧
      clampPlanTasks maxSubagents tasks = tasks.take maxSubagents) ∧
    (tasks.length ≤ maxSubagents → clampPlanTasks maxSubagents tasks = tasks) := by
  constructor
  · intro h
    refine ⟨?_, by simp [clampPlanTasks, h]⟩
    simp [clampPlanTasks, h]
    omega
  · intro h
    simp [clampPlanTasks, Nat.not_lt.mpr h]

theorem clampPlanTasks_spec_witness :
    clampPlanTasks 2 ["a", "b", "c"] = ["a", "b"] ∧
    clampPlanTasks 2 ["d", "e"] = ["d", "e"] := by
  constructor
  · exact ((clampPlanTasks_spec 2 ["a", "b", "c"]).1 (by decide)).2.trans (by decide)
  · exact (clampPlanTasks_spec 2 ["d", "e"]).2 (by decide)

/-- Python's `\s` character class, restricted to its ASCII members (the only
ones the source texts contain). -/
def isPySpace (c : Char) : Bool :=
  c = ' ' || c = '\t' || c = '\n' || c = '\r' || c = '\x0b' || c = '\x0c'

/-- Python `str.strip()` on the same whitespace class. -/
def pyStrip (cs : List Char) : List Char :=
  ((cs.dropWhile isPySpace).reverse.dropWhile isPySpace).reverse

/-- Python `str.replace(pat, '')` for a non-empty pattern: every
left-to-right, non-overlapping occurrence is removed. Fuel is the input
length; every step consumes at least one character. -/
def pyRemoveAux (pat : List Char) : Nat → List Char → List Char
  | 0, cs => cs
  | _ + 1, [] => []
  | fuel + 1, c :: rest =>
      if pat ≠ [] ∧ pat.isPrefixOf (c :: rest) then
        pyRemoveAux pat fuel ((c :: rest).drop pat.length)
      else
        c :: pyRemoveAux pat fuel rest

/-- Python `str.replace(pat, '')` (entry point). -/
def pyRemove (pat cs : List Char) : List Char := pyRemoveAux pat cs.length cs

/-- Case-insensitive literal prefix test, for the `re.IGNORECASE` heading
keywords (stored lowercase). -/
def icPrefixOf : List Char → List Char → Bool
  | [], _ => true
  | _ :: _, [] => false
  | k :: ks, c :: cs => k = c.toLower && icPrefixOf ks cs

/-- The alternation `(?:Bibliography|Sources|References)` of the heading
pattern in `parse_bibliography` (`parsers.py`, lines 53-57); matching is
case-insensitive and the three words start with distinct letters, so at most
one alternative applies at a given position. -/
def headingKeywords : List (List Char) :=
  ["bibliography".data, "sources".data, "references".data]

/-- The optional colon `:?` after the heading keyword. Greedy; giving the
colon back cannot rescue a failed match (a colon is not `\s` and not `\n`),
so the backtracking alternative is vacuous. -/
def dropColonOpt : List Char → List Char
  | ':' :: rest => rest
  | cs => cs

/-- Backtracking for `\s*\n(.+)` (with `re.DOTALL`) after the heading: the
greedy whitespace run is scanned from the right (`wrev` is the reversed run,
`acc` the characters already given back, `t` the text after the run); the
literal `\n` matches at the last newline of the run that leaves the group
`(.+)` non-empty, and the group is everything after that newline. -/
def chooseNewlineSplit (t : List Char) : List Char → List Char → Option (List Char)
  | [], _ => none
  | c :: wrev, acc =>
      if c = '\n' ∧ (acc ≠ [] ∨ t ≠ []) then some (acc ++ t)
      else chooseNewlineSplit t wrev (c :: acc)

/-- Try to match `(?:Bibliography|Sources|References):?\s*\n(.+)` anchored at
the start of `cs`, returning group 1 (the bibliography text). -/
def matchHeadingAt (cs : List Char) : Option (List Char) :=
  match headingKeywords.find? (fun kw => icPrefixOf kw cs) with
  | none => none
  | some kw =>
      let r := dropColonOpt (cs.drop kw.length)
      let w := r.takeWhile isPySpace
      chooseNewlineSplit (r.drop w.length) w.reverse []

/-- `re.search` for the heading pattern: leftmost match, scanning start
positions left to right. -/
def searchHeading : List Char → Option (List Char)
  | [] => none
  | c :: rest =>
      match matchHeadingAt (c :: rest) with
      | some g => some g
      | none => searchHeading rest

/-- Lazy `(.+?)(?:\n|$)` without `re.DOTALL`: the group grows over
non-newline characters and the first boundary where a newline or the end of
input follows is taken, so the group is the longest newline-free prefix;
it must be non-empty. -/
def lazyLineCapture (cs : List Char) : Option (List Char) :=
  let g := cs.takeWhile (fun c => c ≠ '\n')
  if g = [] then none else some g

/-- Greedy `\s*` before `lazyLineCapture`, backtracking from the longest
whitespace run (`k` characters) down to the empty one. -/
def wsLazyAux (r : List Char) : Nat → Option (List Char)
  | 0 => lazyLineCapture r
  | k + 1 =>
      match lazyLineCapture (r.drop (k + 1)) with
      | some g => some g
      | none => wsLazyAux r k

/-- `re.search` for `LABEL\s*(.+?)(?:\n|$)` (the `URL:` and `Accessed:` line
patterns of `parse_bibliography`, lines 71 and 79): scan start positions
left to right; where the literal label matches, run the backtracking tail;
on failure resume scanning one position further. -/
def searchLabelLine (label : List Char) : List Char → Option (List Char)
  | [] => none
  | c :: rest =>
      if label.isPrefixOf (c :: rest) then
        match
          wsLazyAux ((c :: rest).drop label.length)
            (((c :: rest).drop label.length).takeWhile isPySpace).length with
        | some g => some g
        | none => searchLabelLine label rest
      else searchLabelLine label rest

/-- Lazy `(.+?)(?:\n\[|$)` with `re.DOTALL`, growing one character at a time
(`accRev` is the reversed group so far): at each boundary the terminator
`\n\[` is tried first and is CONSUMED when it matches; otherwise `$` matches
at the end of input or just before a trailing final newline. Returns the
group and the rest of the input after the match end. -/
def citBodyLoop : List Char → List Char → List Char × List Char
  | accRev, '\n' :: '[' :: r => (accRev.reverse, r)
  | accRev, ['\n'] => (accRev.reverse, ['\n'])
  | accRev, [] => (accRev.reverse, [])
  | accRev, c :: r => citBodyLoop (c :: accRev) r

/-- The lazy group needs at least one character. -/
def lazyCitBody : List Char → Option (List Char × List Char)
  | [] => none
  | c :: rest => some (citBodyLoop [c] rest)

/-- Greedy `\s*` before the citation body, backtracking from the longest
whitespace run down (the body fails only on empty input). -/
def citWsAux (r : List Char) : Nat → Option (List Char × List Char)
  | 0 => lazyCitBody r
  | k + 1 =>
      match lazyCitBody (r.drop (k + 1)) with
      | some p => some p
      | none => citWsAux r k

/-- Value of a digit run, as Python `int()`. -/
def digitsToNat (ds : List Char) : Nat :=
  ds.foldl (fun n c => n * 10 + (c.toNat - Char.toNat '0')) 0

/-- Try to match the citation pattern `\[(\d+)\]\s*(.+?)(?:\n\[|$)` anchored
at the start of the input: literal `[`, a maximal non-empty digit run (a
shorter run is still followed by a digit, not `]`, so digit backtracking is
vacuous), literal `]`, greedy `\s*`, lazy body. Returns the entry index, the
raw group 2, and the rest of the input after the match end. -/
def matchCitationAt : List Char → Option (Nat × List Char × List Char)
  | '[' :: r =>
      let ds := r.takeWhile Char.isDigit
      if ds = [] then none
      else
        match r.drop ds.length with
        | ']' :: r2 =>
            match citWsAux r2 (r2.takeWhile isPySpace).length with
            | some (g, rest) => some (digitsToNat ds, g, rest)
            | none => none
        | _ => none
  | _ => none

/-- `re.finditer` for the citation pattern: non-overlapping matches, each
search resuming at the end of the previous match (which has consumed the
`\n[` terminator). Fuel is the input length; a skipped position and a match
both consume at least one character. -/
def finditerCitationsAux : Nat → List Char → List (Nat × List Char)
  | 0, _ => []
  | _ + 1, [] => []
  | fuel + 1, c :: rest =>
      match matchCitationAt (c :: rest) with
      | some (i, g, rem) => (i, g) :: finditerCitationsAux fuel rem
      | none => finditerCitationsAux fuel rest

/-- All citation-pattern matches of the bibliography text, in match order. -/
def finditerCitations (cs : List Char) : List (Nat × List Char) :=
  finditerCitationsAux cs.length cs

/-- The `url` local of `parse_bibliography` (`parsers.py`, lines 71-72):
the `URL:` line search over the stripped entry text, group stripped; empty
when the line is absent. -/
def entryUrl (rawGroup : List Char) : List Char :=
  match searchLabelLine "URL:".data (pyStrip rawGroup) with
  | some g => pyStrip g
  | none => []

/-- The `title` local of `parse_bibliography` (`parsers.py`, lines 75-76):
the first line of the stripped entry text, with every literal `URL:`
removed, stripped. -/
def entryTitle (rawGroup : List Char) : List Char :=
  pyStrip (pyRemove "URL:".data ((pyStrip rawGroup).takeWhile (fun c => c ≠ '\n')))

/-- The `accessed_date` local of `parse_bibliography` (`parsers.py`, lines
79-80). -/
def entryAccessed (rawGroup : List Char) : List Char :=
  match searchLabelLine "Accessed:".data (pyStrip rawGroup) with
  | some g => pyStrip g
  | none => []

/-- Models the per-entry `Citation` construction of `parse_bibliography`
(`parsers.py`, lines 66-87): `citation_text = match.group(2).strip()`; the
URL and accessed-date lines are `re.search`ed inside it; the title is the
first line of `citation_text` with every literal `URL:` removed, stripped;
title and url swap roles when the title text looks like a bare URL or when
no URL line is present. -/
def buildCitation (index : Nat) (rawGroup : List Char) : Citation :=
  { index := index,
    title := String.mk (if "http".data.isPrefixOf (entryTitle rawGroup) then
               entryUrl rawGroup else entryTitle rawGroup),
    url := String.mk (if entryUrl rawGroup = [] then entryTitle rawGroup
             else entryUrl rawGroup),
    accessed_date := String.mk (entryAccessed rawGroup) }

/-- Models `parse_bibliography` (`parsers.py`, lines 39-102). `currentDate`
stands for the `datetime.now().strftime('%Y-%m-%d')` value computed in the
fallback branch. -/
def parse_bibliography (text : String) (sources : List String) (currentDate : String) :
    List Citation :=
  match searchHeading text.data with
  | some bibText =>
      (finditerCitations bibText).map (fun p => buildCitation p.1 p.2)
  | none =>
      sources.enum.map (fun p =>
        { index := p.1 + 1, title := p.2, url := p.2, accessed_date := currentDate })

/-- First-seen metadata recorded by `CitationAgent._compile_sources`
(`citation_agent.py`, lines 106-110). -/
structure SourceMeta where
  url : String
  task : String
  agent_id : String
  deriving Repr, DecidableEq

/-- Inner loop of `_compile_sources` (`citation_agent.py`, lines 103-110)
over one worker's source list: a URL is appended to `all_sources` and
recorded in `source_map` only when it is non-empty and not yet registered. -/
def addWorkerSources (task agent_id : String) :
    List String → List String × List (String × SourceMeta) →
    List String × List (String × SourceMeta)
  | [], acc => acc
  | u :: rest, acc =>
      if u ≠ "" ∧ acc.2.lookup u = none then
        addWorkerSources task agent_id rest
          (acc.1 ++ [u], acc.2 ++ [(u, { url := u, task := task, agent_id := agent_id })])
      else addWorkerSources task agent_id rest acc

/-- Models `_compile_sources` (`citation_agent.py`, lines 88-112): worker
results are scanned sequentially in task order (the list the coordinator
returns), so registration order never depends on completion order. -/
def compileSources (results : List SubagentResult) :
    List String × List (String × SourceMeta) :=
  results.foldl (fun acc r => addWorkerSources r.task r.agent_id r.sources acc) ([], [])

/-- C8: every exception raised during the worker's reasoning loop is caught
inside `ResearchSubagent.research`, which still returns a result for its
task with confidence `"low"`, an empty source list and a summary describing
the failure; the function is total, so no exception escapes to the
coordinator. -/
theorem subagentResearch_raises_spec (agent_id task msg : String) :
    subagentResearch agent_id task (.raises msg) =
      { agent_id := agent_id, task := task,
        summary := "Research failed: " ++ msg,
        findings := "Error occurred during research: " ++ msg,
        sources := [], confidence := "low" } := rfl

/-- The citation response used for C2: a report followed by a bibliography
section containing exactly two well-formed numbered entries, each with a
URL line and an accessed-date line. -/
def c2Response : String :=
  "Report body.\n\nBibliography:\n[1] First Title\nURL: http://a.com\nAccessed: 2024-05-01\n[2] Second Title\nURL: http://b.com\nAccessed: 2024-05-02"

/-- C2 (code bug): on a bibliography with exactly two well-formed numbered
entries the resolver returns ONE Citation, not two. The entry pattern
`\[(\d+)\]\s*(.+?)(?:\n\[|$)` consumes the `\n[` that opens the next entry,
so `re.finditer` resumes past the second entry's bracket and skips it; the
first entry is parsed correctly. -/
theorem parse_bibliography_two_entries_bug :
    parse_bibliography c2Response ["http://a.com", "http://b.com"] "2024-05-01" =
      [{ index := 1, title := "First Title", url := "http://a.com",
         accessed_date := "2024-05-01" }] ∧
    (parse_bibliography c2Response ["http://a.com", "http://b.com"] "2024-05-01").length
      ≠ 2 := by
  constructor
  · decide
  · decide

/-- C3: when no bibliography section is found in the response text, the
fallback produces exactly one Citation per source URL, indices `1..N` in
registration order, each title equal to its url, all stamped with the
current date. -/
theorem parse_bibliography_fallback_spec (text : String) (sources : List String)
    (currentDate : String) (h : searchHeading text.data = none) :
    (parse_bibliography text sources currentDate).length = sources.length ∧
    ∀ (i : Nat) (hi : i < (parse_bibliography text sources currentDate).length)
      (hj : i < sources.length),
      (parse_bibliography text sources currentDate).get ⟨i, hi⟩ =
        { index := i + 1, title := sources.get ⟨i, hj⟩, url := sources.get ⟨i, hj⟩,
          accessed_date := currentDate } := by
  constructor
  · simp [parse_bibliography, h]
  · intro i hi hj
    simp [parse_bibliography, h]

theorem parse_bibliography_fallback_spec_witness :
    (parse_bibliography "plain text, no heading" ["http://a.com", "http://b.com"] "2024-05-01").get
        ⟨1, by decide⟩ =
      { index := 2, title := "http://b.com", url := "http://b.com",
        accessed_date := "2024-05-01" } := by
  have h := (parse_bibliography_fallback_spec "plain text, no heading"
      ["http://a.com", "http://b.com"] "2024-05-01" (by decide)).2 1 (by decide) (by decide)
  simpa using h

/-- C4 counterexample: a response whose text contains a recognized `Sources`
heading but no parsable numbered entry yields an EMPTY bibliography even
though a source was registered — the registry fallback triggers only when
the heading itself is missing. -/
theorem parse_bibliography_nonempty_counterexample :
    parse_bibliography "Sources:\nnone listed here" ["http://a.com"] "2024-05-01" = []
    ∧ ["http://a.com"] ≠ ([] : List String) := by
  constructor
  · decide
  · decide

/-- C4 (amended): whenever NO recognized bibliography section heading is
found in the response text and at least one source was registered, the
returned bibliography is non-empty. -/
theorem parse_bibliography_nonempty_amended (text : String) (sources : List String)
    (currentDate : String) (h : searchHeading text.data = none) (hs : sources ≠ []) :
    parse_bibliography text sources currentDate ≠ [] := by
  have hlen := (parse_bibliography_fallback_spec text sources currentDate h).1
  intro hempty
  rw [hempty] at hlen
  exact hs (List.eq_nil_of_length_eq_zero hlen.symm)

theorem parse_bibliography_nonempty_amended_witness :
    parse_bibliography "no heading anywhere" ["http://a.com"] "2024-05-01" ≠ [] :=
  parse_bibliography_nonempty_amended "no heading anywhere" ["http://a.com"] "2024-05-01"
    (by decide) (by decide)

/-- Lazy `(.*?)</task>` of the plan pattern: the possibly-empty group grows
one character at a time (`accRev` reversed); the first position where the
literal closing tag matches ends the match, consuming the tag. -/
def taskBodyLoop : List Char → List Char → Option (List Char × List Char)
  | _, [] => none
  | accRev, c :: r =>
      if "</task>".data.isPrefixOf (c :: r) then
        some (accRev.reverse, (c :: r).drop 7)
      else taskBodyLoop (c :: accRev) r

/-- `re.findall(r'<task>(.*?)</task>', content, re.DOTALL)` from
`parse_research_plan` (`parsers.py`, line 16): scan for the opening tag,
take the lazy body up to the first closing tag, resume after it; an opening
tag without a closing one fails at that start position and scanning resumes
one character further. Fuel is the input length. -/
def findTasksAux : Nat → List Char → List (List Char)
  | 0, _ => []
  | _ + 1, [] => []
  | fuel + 1, c :: rest =>
      if "<task>".data.isPrefixOf (c :: rest) then
        match taskBodyLoop [] ((c :: rest).drop 6) with
        | some (g, rem) => g :: findTasksAux fuel rem
        | none => findTasksAux fuel rest
      else findTasksAux fuel rest

/-- Task list of `parse_research_plan` (`parsers.py`, lines 16-20): every
`<task>` block in document order, stripped, empty ones dropped. -/
def parseResearchPlanTasks (content : String) : List String :=
  (findTasksAux content.data.length content.data).filterMap (fun t =>
    if pyStrip t = [] then none else some (String.mk (pyStrip t)))

/-- The task list actually used for the run: `LeadResearcher.create_plan`
parses the generation response (`lead_researcher.py`, lines 51-76, which
never rejects a plan), then the orchestrator clamps it to `max_subagents`
(`orchestrator.py`, lines 82-84). No lower bound is enforced anywhere:
`min_subagents` only appears in the planning prompt. -/
def planTasksForRun (content : String) : List String :=
  clampPlanTasks settings_max_subagents (parseResearchPlanTasks content)

/-- C6 counterexample: a generation response with a rationale but no task
blocks parses to zero tasks, and the plan used for the run has zero tasks —
strictly below the configured `min_subagents = 3`, so the run's task count
is NOT confined to `[min_subagents, max_subagents]`. -/
theorem plan_min_bound_counterexample :
    (planTasksForRun "<rationale>one angle suffices</rationale>").length = 0 ∧
    (planTasksForRun "<rationale>one angle suffices</rationale>").length
      < settings_min_subagents := by
  constructor
  · decide
  · decide

/-- C6 (amended): every plan used for the run has at most `max_subagents`
tasks and is never rejected (`planTasksForRun` is total); the lower bound
`min_subagents` is only suggested to the generation service through the
prompt, never enforced on the parsed plan. -/
theorem planTasksForRun_le_max (content : String) :
    (planTasksForRun content).length ≤ settings_max_subagents := by
  unfold planTasksForRun clampPlanTasks
  split
  · simp
  · omega

/-- Percent of the `subagent_started` progress event for worker `index` out
of `n` (`orchestrator.py`, line 196): `25 + (index * 45 // len(tasks))`. -/
def startPercent (n index : Nat) : Nat := 25 + index * 45 / n

/-- Percent of the `subagent_finished` progress event (`orchestrator.py`,
line 206): `25 + ((index + 1) * 45 // len(tasks))`. -/
def finishPercent (n index : Nat) : Nat := 25 + (index + 1) * 45 / n

/-- Percent of the terminal `error` progress event (`orchestrator.py`,
lines 161-165). -/
def errorPercent : Nat := 0

/-- A worker progress emission of `execute_with_progress`
(`orchestrator.py`, lines 192-212). -/
inductive WorkerEvent where
  | start (index : Nat)
  | finish (index : Nat)
  deriving DecidableEq, Repr

/-- Percent carried by a worker progress event. -/
def workerEventPercent (n : Nat) : WorkerEvent → Nat
  | .start i => startPercent n i
  | .finish i => finishPercent n i

/-- Percent stream of a successful run (`research`, lines 73-153): the fixed
phase percents 10, 20, 25 precede the fan-out, then the worker events in
the order the cooperative scheduler ran them, then 70, 75, 90, 100. -/
def runPercents (n : Nat) (schedule : List WorkerEvent) : List Nat :=
  [10, 20, 25] ++ schedule.map (workerEventPercent n) ++ [70, 75, 90, 100]

/-- A schedule is valid when every worker below `n` emits exactly one start
and one finish, the start strictly before the finish (each
`execute_with_progress` coroutine emits its start, awaits the worker, then
emits its finish), and no other events occur. -/
def isValidSchedule (n : Nat) (schedule : List WorkerEvent) : Bool :=
  schedule.length = 2 * n &&
  (List.range n).all (fun i =>
    schedule.count (.start i) = 1 && schedule.count (.finish i) = 1 &&
    schedule.indexOf (WorkerEvent.start i) < schedule.indexOf (WorkerEvent.finish i))

/-- Adjacent-pair monotonicity of a percent stream. -/
def nondecreasing : List Nat → Bool
  | [] => true
  | [_] => true
  | a :: b :: rest => decide (a ≤ b) && nondecreasing (b :: rest)

/-- The schedule `asyncio` actually produces for three workers that all
suspend on their first await: every coroutine emits its start event in
spawn order before any finishes, then the workers finish — here in task
order. -/
def c9Schedule : List WorkerEvent :=
  [.start 0, .start 1, .start 2, .finish 0, .finish 1, .finish 2]

/-- C9 counterexample: for a successful three-worker run there is a
realizable completion schedule (all starts first, finishes in task order)
whose emitted percent stream is NOT non-decreasing: the stream is
`[10, 20, 25, 25, 40, 55, 40, 55, 70, 70, 75, 90, 100]`, which decreases
from 55 to 40. -/
theorem progress_monotonic_counterexample :
    isValidSchedule 3 c9Schedule = true ∧
    runPercents 3 c9Schedule = [10, 20, 25, 25, 40, 55, 40, 55, 70, 70, 75, 90, 100] ∧
    nondecreasing (runPercents 3 c9Schedule) = false := by
  refine ⟨by decide, by decide, by decide⟩

/-- C9 (amended): the percent VALUES the orchestrator assigns are monotone
along task order — each worker's start percent is at most its finish
percent, both are monotone in the task index, and all worker percents lie
between the surrounding phase percents 25 and 70 — so the stream is
non-decreasing when worker events are emitted sequentially in task order;
under concurrent interleaving the emitted stream itself need not be
monotone (see the counterexample). For a failed run the terminal error
update's percent is 0 regardless of the last successful phase's percent. -/
theorem progress_percent_amended (n i j : Nat) (hij : i ≤ j) (hj : j < n) :
    startPercent n i ≤ startPercent n j ∧
    startPercent n i ≤ finishPercent n i ∧
    finishPercent n i ≤ finishPercent n j ∧
    25 ≤ startPercent n i ∧
    finishPercent n j ≤ 70 ∧
    errorPercent = 0 := by
  refine ⟨?_, ?_, ?_, ?_, ?_, rfl⟩
  · exact Nat.add_le_add_left (Nat.div_le_div_right (Nat.mul_le_mul_right 45 hij)) 25
  · exact Nat.add_le_add_left
      (Nat.div_le_div_right (Nat.mul_le_mul_right 45 (Nat.le_succ i))) 25
  · exact Nat.add_le_add_left
      (Nat.div_le_div_right (Nat.mul_le_mul_right 45 (Nat.succ_le_succ hij))) 25
  · exact Nat.le_add_right 25 _
  · have h1 : (j + 1) * 45 / n ≤ n * 45 / n :=
      Nat.div_le_div_right (Nat.mul_le_mul_right 45 hj)
    have hn : 0 < n := Nat.lt_of_le_of_lt (Nat.zero_le j) hj
    have h2 : n * 45 / n = 45 := Nat.mul_div_cancel_left 45 hn
    unfold finishPercent
    omega

theorem progress_percent_amended_witness :
    startPercent 3 1 ≤ startPercent 3 2 ∧
    startPercent 3 1 ≤ finishPercent 3 1 ∧
    finishPercent 3 1 ≤ finishPercent 3 2 ∧
    25 ≤ startPercent 3 1 ∧
    finishPercent 3 2 ≤ 70 ∧
    errorPercent = 0 :=
  progress_percent_amended 3 1 2 (by decide) (by decide)

theorem lookup_singleton_ne {β : Type} (u k : String) (v : β) (h : u ≠ k) :
    List.lookup u [(k, v)] = none := by
  simp [List.lookup, beq_eq_false_iff_ne.mpr h]

theorem lookup_singleton_eq {β : Type} (k : String) (v : β) :
    List.lookup k [(k, v)] = some v := by
  simp [List.lookup]

theorem lookup_append_left {β : Type} (u : String) (l1 l2 : List (String × β)) (v : β)
    (h : l1.lookup u = some v) : (l1 ++ l2).lookup u = some v := by
  induction l1 with
  | nil => simp [List.lookup] at h
  | cons p t ih =>
      obtain ⟨k, w⟩ := p
      cases hp : u == k with
      | true => simpa [List.lookup, hp] using h
      | false =>
          simp only [List.lookup, hp] at h
          simpa [List.lookup, hp] using ih h

theorem lookup_append_right {β : Type} (u : String) (l1 l2 : List (String × β))
    (h : l1.lookup u = none) : (l1 ++ l2).lookup u = l2.lookup u := by
  induction l1 with
  | nil => simp
  | cons p t ih =>
      obtain ⟨k, w⟩ := p
      cases hp : u == k with
      | true => simp [List.lookup, hp] at h
      | false =>
          simp only [List.lookup, hp] at h
          simpa [List.lookup, hp] using ih h

theorem addWorkerSources_cons_pos (t a u' : String) (rest : List String)
    (acc : List String × List (String × SourceMeta))
    (hc : u' ≠ "" ∧ acc.2.lookup u' = none) :
    addWorkerSources t a (u' :: rest) acc =
      addWorkerSources t a rest
        (acc.1 ++ [u'], acc.2 ++ [(u', SourceMeta.mk u' t a)]) := by
  simp only [addWorkerSources]
  rw [if_pos hc]

theorem addWorkerSources_cons_neg (t a u' : String) (rest : List String)
    (acc : List String × List (String × SourceMeta))
    (hc : ¬(u' ≠ "" ∧ acc.2.lookup u' = none)) :
    addWorkerSources t a (u' :: rest) acc = addWorkerSources t a rest acc := by
  simp only [addWorkerSources]
  rw [if_neg hc]

theorem addWorkerSources_preserve (u : String) (m : SourceMeta) :
    ∀ (urls : List String) (t a : String)
      (acc : List String × List (String × SourceMeta)),
      acc.2.lookup u = some m →
      ((addWorkerSources t a urls acc).2.lookup u = some m ∧
       (addWorkerSources t a urls acc).1.count u = acc.1.count u) := by
  intro urls
  induction urls with
  | nil => intro t a acc h; exact ⟨h, rfl⟩
  | cons u' rest ih =>
      intro t a acc h
      by_cases hc : u' ≠ "" ∧ acc.2.lookup u' = none
      · have hne : u' ≠ u := by
          intro he
          rw [he, h] at hc
          exact Option.noConfusion hc.2
        have h2 : (acc.2 ++ [(u', SourceMeta.mk u' t a)]).lookup u = some m :=
          lookup_append_left u acc.2 [(u', SourceMeta.mk u' t a)] m h
        have hcount : (acc.1 ++ [u']).count u = acc.1.count u := by
          simp [List.count_append, List.count_singleton', Ne.symm hne]
        rw [addWorkerSources_cons_pos t a u' rest acc hc]
        have := ih t a (acc.1 ++ [u'], acc.2 ++ [(u', SourceMeta.mk u' t a)]) h2
        exact ⟨this.1, this.2.trans hcount⟩
      · rw [addWorkerSources_cons_neg t a u' rest acc hc]
        exact ih t a acc h

theorem addWorkerSources_skip (u : String) :
    ∀ (urls : List String) (t a : String)
      (acc : List String × List (String × SourceMeta)),
      acc.2.lookup u = none → u ∉ urls →
      ((addWorkerSources t a urls acc).2.lookup u = none ∧
       (addWorkerSources t a urls acc).1.count u = acc.1.count u) := by
  intro urls
  induction urls with
  | nil => intro t a acc h _; exact ⟨h, rfl⟩
  | cons u' rest ih =>
      intro t a acc h hmem
      have hne : u' ≠ u := fun he => hmem (he ▸ List.mem_cons_self u' rest)
      have hrest : u ∉ rest := fun hr => hmem (List.mem_cons_of_mem u' hr)
      by_cases hc : u' ≠ "" ∧ acc.2.lookup u' = none
      · have h2 : (acc.2 ++ [(u', SourceMeta.mk u' t a)]).lookup u = none := by
          rw [lookup_append_right u acc.2 [(u', SourceMeta.mk u' t a)] h]
          exact lookup_singleton_ne u u' (SourceMeta.mk u' t a) (Ne.symm hne)
        have hcount : (acc.1 ++ [u']).count u = acc.1.count u := by
          simp [List.count_append, List.count_singleton', Ne.symm hne]
        rw [addWorkerSources_cons_pos t a u' rest acc hc]
        have := ih t a (acc.1 ++ [u'], acc.2 ++ [(u', SourceMeta.mk u' t a)]) h2 hrest
        exact ⟨this.1, this.2.trans hcount⟩
      · rw [addWorkerSources_cons_neg t a u' rest acc hc]
        exact ih t a acc h hrest

theorem addWorkerSources_register (u : String) (hu : u ≠ "") :
    ∀ (urls : List String) (t a : String)
      (acc : List String × List (String × SourceMeta)),
      acc.2.lookup u = none → u ∈ urls →
      ((addWorkerSources t a urls acc).2.lookup u = some (SourceMeta.mk u t a) ∧
       (addWorkerSources t a urls acc).1.count u = acc.1.count u + 1) := by
  intro urls
  induction urls with
  | nil => intro t a acc _ hmem; exact absurd hmem (List.not_mem_nil u)
  | cons u' rest ih =>
      intro t a acc h hmem
      by_cases he : u' = u
      · subst he
        have hc : u' ≠ "" ∧ acc.2.lookup u' = none := ⟨hu, h⟩
        have h2 : (acc.2 ++ [(u', SourceMeta.mk u' t a)]).lookup u' =
            some (SourceMeta.mk u' t a) := by
          rw [lookup_append_right u' acc.2 [(u', SourceMeta.mk u' t a)] h]
          exact lookup_singleton_eq u' (SourceMeta.mk u' t a)
        have hcount : (acc.1 ++ [u']).count u' = acc.1.count u' + 1 := by
          simp [List.count_append]
        rw [addWorkerSources_cons_pos t a u' rest acc hc]
        have := addWorkerSources_preserve u' (SourceMeta.mk u' t a) rest t a
          (acc.1 ++ [u'], acc.2 ++ [(u', SourceMeta.mk u' t a)]) h2
        exact ⟨this.1, this.2.trans hcount⟩
      · have hmem' : u ∈ rest := by
          cases List.mem_cons.mp hmem with
          | inl hx => exact absurd hx.symm he
          | inr hx => exact hx
        by_cases hc : u' ≠ "" ∧ acc.2.lookup u' = none
        · have h2 : (acc.2 ++ [(u', SourceMeta.mk u' t a)]).lookup u = none := by
            rw [lookup_append_right u acc.2 [(u', SourceMeta.mk u' t a)] h]
            exact lookup_singleton_ne u u' (SourceMeta.mk u' t a)
              (fun hx => he hx.symm)
          have hcount : (acc.1 ++ [u']).count u = acc.1.count u := by
            simp [List.count_append, List.count_singleton', he]
          rw [addWorkerSources_cons_pos t a u' rest acc hc]
          have := ih t a (acc.1 ++ [u'], acc.2 ++ [(u', SourceMeta.mk u' t a)]) h2 hmem'
          exact ⟨this.1, by rw [this.2, hcount]⟩
        · rw [addWorkerSources_cons_neg t a u' rest acc hc]
          exact ih t a acc h hmem'

theorem compileSources_fold_preserve (u : String) (m : SourceMeta) :
    ∀ (results : List SubagentResult) (acc : List String × List (String × SourceMeta)),
      acc.2.lookup u = some m →
      (((results.foldl (fun acc r => addWorkerSources r.task r.agent_id r.sources acc)
          acc).2.lookup u = some m) ∧
       ((results.foldl (fun acc r => addWorkerSources r.task r.agent_id r.sources acc)
          acc).1.count u = acc.1.count u)) := by
  intro results
  induction results with
  | nil => intro acc h; exact ⟨h, rfl⟩
  | cons r rest ih =>
      intro acc h
      have step := addWorkerSources_preserve u m r.sources r.task r.agent_id acc h
      have hmain := ih (addWorkerSources r.task r.agent_id r.sources acc) step.1
      refine ⟨?_, ?_⟩
      · rw [List.foldl_cons]
        exact hmain.1
      · rw [List.foldl_cons]
        exact hmain.2.trans step.2

theorem compileSources_fold_find (u : String) (hu : u ≠ "") :
    ∀ (results : List SubagentResult) (acc : List String × List (String × SourceMeta))
      (r0 : SubagentResult),
      acc.2.lookup u = none →
      results.find? (fun r => r.sources.contains u) = some r0 →
      (((results.foldl (fun acc r => addWorkerSources r.task r.agent_id r.sources acc)
          acc).2.lookup u = some (SourceMeta.mk u r0.task r0.agent_id)) ∧
       ((results.foldl (fun acc r => addWorkerSources r.task r.agent_id r.sources acc)
          acc).1.count u = acc.1.count u + 1)) := by
  intro results
  induction results with
  | nil => intro acc r0 _ hfind; simp [List.find?] at hfind
  | cons r rest ih =>
      intro acc r0 h hfind
      cases hc : r.sources.contains u with
      | true =>
          have hr0 : r = r0 := by
            rw [List.find?_cons_of_pos rest hc] at hfind
            exact Option.some.inj hfind
          subst hr0
          have humem : u ∈ r.sources := by simpa using hc
          have step := addWorkerSources_register u hu r.sources r.task r.agent_id acc
            h humem
          have hmain := compileSources_fold_preserve u
            (SourceMeta.mk u r.task r.agent_id) rest
            (addWorkerSources r.task r.agent_id r.sources acc) step.1
          refine ⟨?_, ?_⟩
          · rw [List.foldl_cons]
            exact hmain.1
          · rw [List.foldl_cons]
            exact hmain.2.trans step.2
      | false =>
          have hnotp : ¬((fun r : SubagentResult => r.sources.contains u) r = true) := by
            simpa using hc
          have hfind' : rest.find? (fun r => r.sources.contains u) = some r0 := by
            rw [List.find?_cons_of_neg rest hnotp] at hfind
            exact hfind
          have humem : u ∉ r.sources := by simpa using hc
          have step := addWorkerSources_skip u r.sources r.task r.agent_id acc h humem
          have hmain := ih (addWorkerSources r.task r.agent_id r.sources acc) r0
            step.1 hfind'
          refine ⟨?_, ?_⟩
          · rw [List.foldl_cons]
            exact hmain.1
          · rw [List.foldl_cons]
            rw [hmain.2, step.2]

/-- C7: when two distinct workers both report the same non-empty URL, the
compiled source registry contains exactly one entry for it (it appears
exactly once in `all_sources`), and the recorded metadata (originating task
and agent id) comes from the first worker, in original task order, whose
source list contains that URL (`List.find?`). The construction is a pure
function of the task-ordered result list, so the outcome cannot depend on
worker completion order. -/
theorem compileSources_dedup_spec (results : List SubagentResult) (u : String)
    (hu : u ≠ "") (i j : Nat) (hi : i < results.length) (hj : j < results.length)
    (hij : i ≠ j) (hui : u ∈ (results.get ⟨i, hi⟩).sources)
    (huj : u ∈ (results.get ⟨j, hj⟩).sources) :
    (compileSources results).1.count u = 1 ∧
    ∃ r0, results.find? (fun r => r.sources.contains u) = some r0 ∧
      (compileSources results).2.lookup u =
        some { url := u, task := r0.task, agent_id := r0.agent_id } := by
  have hmem : ∃ r, r ∈ results ∧ (fun r : SubagentResult => r.sources.contains u) r
      = true :=
    ⟨results.get ⟨i, hi⟩, List.get_mem results i hi, by simpa using hui⟩
  have hsome : (results.find? (fun r => r.sources.contains u)).isSome := by
    rw [List.find?_isSome]
    simpa using hmem
  obtain ⟨r0, hr0⟩ := Option.isSome_iff_exists.mp hsome
  have h := compileSources_fold_find u hu results ([], []) r0 rfl hr0
  exact ⟨by simpa [compileSources] using h.2,
    r0, hr0, by simpa [compileSources] using h.1⟩

/-- Two workers that both report `http://x.com`. -/
def c7Results : List SubagentResult :=
  [{ agent_id := "subagent_0", task := "t0", summary := "s0", findings := "f0",
     sources := ["http://x.com", "http://y.com"], confidence := "high" },
   { agent_id := "subagent_1", task := "t1", summary := "s1", findings := "f1",
     sources := ["http://x.com"], confidence := "medium" }]

theorem compileSources_dedup_spec_witness :
    (compileSources c7Results).1.count "http://x.com" = 1 ∧
    ∃ r0, c7Results.find? (fun r => r.sources.contains "http://x.com") = some r0 ∧
      (compileSources c7Results).2.lookup "http://x.com" =
        some { url := "http://x.com", task := r0.task, agent_id := r0.agent_id } :=
  compileSources_dedup_spec c7Results "http://x.com" (by decide) 0 1 (by decide)
    (by decide) (by decide) (by decide) (by decide)

/-- C10: a parsed bibliography entry never leaves both fields crossed: when
the entry has no `URL:` line the Citation's url field falls back to the
entry's first-line title text, and when that (label-stripped, trimmed)
first-line text begins with `http` the Citation's title field is set to the
extracted url value instead of that text. -/
theorem buildCitation_field_fallbacks (index : Nat) (rawGroup : List Char) :
    (searchLabelLine "URL:".data (pyStrip rawGroup) = none →
      (buildCitation index rawGroup).url = String.mk (entryTitle rawGroup)) ∧
    ("http".data.isPrefixOf (entryTitle rawGroup) = true →
      (buildCitation index rawGroup).title = String.mk (entryUrl rawGroup)) := by
  constructor
  · intro h
    have hu : entryUrl rawGroup = [] := by simp [entryUrl, h]
    simp [buildCitation, hu]
  · intro h
    simp [buildCitation, h]

theorem buildCitation_field_fallbacks_witness :
    (buildCitation 1 "http://bare.example".data).url
        = String.mk (entryTitle "http://bare.example".data) ∧
    (buildCitation 1 "http://bare.example".data).title
        = String.mk (entryUrl "http://bare.example".data) :=
  ⟨(buildCitation_field_fallbacks 1 "http://bare.example".data).1 (by decide),
   (buildCitation_field_fallbacks 1 "http://bare.example".data).2 (by decide)⟩

end ResearchAgent
